import Mathlib

/-!
# Verification of the vds branched-mutation concurrency design

Shallow embedding of the `tomrford/vds` repository:

* the live optimistic-locking code (`checkVersion` in
  `packages/server/src/mcp/tools.ts`, the `If-Match` checks in the REST
  item routes, `asOfTable` in `lib/dolt.ts`), embedded directly from the
  TypeScript source; and
* the branched-mutation protocol (`withBranchedCommit`, merge
  coordination, orphan sweep) which the repository specifies in
  `docs/branched-mutations.md` but has not implemented; those
  definitions are modelled from the specification.
-/

namespace Vds

/-! ## `asOfTable` (lib/dolt.ts) -/

/-- The shape of the table expression produced by `asOfTable`:
either the plain table, `AS OF TIMESTAMP(s)`, or `AS OF s` (commit hash). -/
inductive AsOfClause where
  | plain : AsOfClause
  | timestamp : String → AsOfClause
  | hash : String → AsOfClause
deriving DecidableEq, Repr

/-- The JavaScript regex test "starts with four ASCII digits followed by
a dash" that `asOfTable` applies to its argument. -/
def startsWithYearDash (s : String) : Bool :=
  match s.toList with
  | a :: b :: c :: d :: e :: _ =>
      a.isDigit && b.isDigit && c.isDigit && d.isDigit && e == '-'
  | _ => false

/-- Embedding of `asOfTable` from `lib/dolt.ts`.  `none` models the
`asOf` argument being `undefined`; `some ""` is falsy in JavaScript
(`if (!asOf) return base`), hence also yields the plain table.
`asOf.includes("T")` is containment of the character `T`; the
year-dash regex test is `startsWithYearDash`. -/
def asOfTable (asOf : Option String) : AsOfClause :=
  match asOf with
  | none => .plain
  | some s =>
      if s = "" then .plain
      else if s.toList.contains 'T' || startsWithYearDash s then .timestamp s
      else .hash s

/-! ## `checkVersion` and the mutation entry points (mcp/tools.ts, api/routes/items.ts) -/

/-- State visible to one mutation entry point: the current Dolt HEAD, the
number of commits created so far, and the number of times a unit of work
has run.  The counters let theorems say "no commit was created" and "the
unit of work never ran". -/
structure CodeState where
  head : String
  commits : Nat
  workRuns : Nat
deriving DecidableEq, Repr

/-- Embedding of `checkVersion` from `mcp/tools.ts`:
`if (!version) return null; const head = await doltHead(db);
if (head !== version) return head; return null;`.
A `some ""` argument is falsy in JavaScript, so it skips the check. -/
def checkVersion (head : String) (version : Option String) : Option String :=
  match version with
  | none => none
  | some v => if v = "" then none else if head ≠ v then some head else none

/-- Result of an MCP mutation tool call: either a `CONFLICT` error
carrying the current head, or success carrying the new commit hash. -/
inductive McpOutcome where
  | conflict : String → McpOutcome
  | ok : String → McpOutcome
deriving DecidableEq, Repr

/-- Embedding of the `create_item` MCP tool handler (`mcp/tools.ts`):
`const head = await checkVersion(db, version);
if (head) return mcpErr("CONFLICT", "Conflict", { head });`
then `withAutoCommit` runs the unit of work and commits.  `newHash` is
the commit hash the store produces on the commit path. -/
def createItemTool (st : CodeState) (version : Option String)
    (newHash : String) : McpOutcome × CodeState :=
  match checkVersion st.head version with
  | some h => (.conflict h, st)
  | none =>
      (.ok newHash,
        { head := newHash, commits := st.commits + 1,
          workRuns := st.workRuns + 1 })

/-- Result of a REST mutation route: either HTTP 409 carrying the current
head, or a success response carrying the ETag commit hash. -/
inductive RestOutcome where
  | status409 : String → RestOutcome
  | ok : String → RestOutcome
deriving DecidableEq, Repr

/-- Embedding of the `POST /items` route (`api/routes/items.ts`):
`const ifMatch = c.req.header("If-Match");
if (ifMatch) { const head = await doltHead(db);
if (head !== ifMatch) return c.json({...}, 409); }`
then `withAutoCommit`.  `none` models the header being absent; `some ""`
is falsy and skips the check. -/
def itemPostRoute (st : CodeState) (ifMatch : Option String)
    (newHash : String) : RestOutcome × CodeState :=
  let rejected : Option String :=
    match ifMatch with
    | none => none
    | some v => if v = "" then none else if st.head ≠ v then some st.head else none
  match rejected with
  | some h => (.status409 h, st)
  | none =>
      (.ok newHash,
        { head := newHash, commits := st.commits + 1,
          workRuns := st.workRuns + 1 })

/-! ## The branched-mutation protocol (docs/branched-mutations.md, spec §4)

The repository specifies `withBranchedCommit`, merge coordination and the
orphan sweep in `docs/branched-mutations.md` but contains no
implementation; the definitions below are modelled from the
specification.  The external versioned store is modelled with Git-like
semantics at row/column granularity: a version is its list of commits
(newest first), each commit a list of cell writes. -/

/-- A row/column coordinate, the granularity at which the external
store's merge detects conflicts. -/
abbrev Cell := Nat × Nat

/-- One commit's content: the cells it writes and the values written. -/
abbrev Writes := List (Cell × Nat)

/-- Modelled from the spec: a version (commit reference) of the
versioned store, identified with its history — the list of commits from
the head back to genesis, newest first. -/
structure Version where
  commits : List Writes
deriving DecidableEq, Repr

/-- The cells touched by a list of commits. -/
def cellsOfCommits (cs : List Writes) : List Cell :=
  (cs.map (fun w => w.map Prod.fst)).flatten

/-- The commits of `v` made since the fork point `base` (those in front
of `base`'s history). -/
def newCommitsSince (v base : Version) : List Writes :=
  v.commits.take (v.commits.length - base.commits.length)

/-- Modelled from the spec: the conflict count the external store's
merge reports — the number of cell writes on the branch side since the
fork point whose cell was also changed on the trunk side since the fork
point ("the same underlying row/column was changed on both sides since
the fork point", spec glossary).  The store derives the fork point as
the common ancestor; the model receives it explicitly as `base`. -/
def conflictCount (trunk branch base : Version) : Nat :=
  ((cellsOfCommits (newCommitsSince branch base)).filter
    (fun c => c ∈ cellsOfCommits (newCommitsSince trunk base))).length

/-- Modelled from the spec: the trunk after a clean merge — the branch's
commits since the fork point applied on top of the trunk's history. -/
def mergedVersion (trunk branch base : Version) : Version :=
  ⟨newCommitsSince branch base ++ trunk.commits⟩

/-- Modelled from the spec (§7): the error taxonomy of the
branched-mutation protocol.  A unit-of-work (validation/CRUD) error is
carried as an opaque code so that "propagates unchanged" is expressible. -/
inductive VdsError where
  | conflictError : VdsError
  | lockTimeoutError : VdsError
  | resourceUnavailableError : VdsError
  | branchCreateError : VdsError
  | unitOfWorkError : Nat → VdsError
deriving DecidableEq, Repr

/-- Modelled from the spec (§4.2): the tagged outcome of a merge
attempt — `Clean` with the new trunk head, or `Conflicted`. -/
inductive MergeOutcome where
  | Clean : Version → MergeOutcome
  | Conflicted : MergeOutcome
deriving DecidableEq, Repr

/-- Modelled from the spec: the state visible to one orchestrator
invocation — the trunk head, the named branches, the session pool (count
of free sessions), the number of session releases performed (to state
"released exactly once"), and the cleanup-failure log. -/
structure Store where
  trunk : Version
  branches : List (String × Version)
  pool : Nat
  releases : Nat
  log : List String
deriving DecidableEq, Repr

/-- Modelled from the spec (§4.2): the default bound on the Merge Lock
wait, in milliseconds. -/
def defaultLockTimeoutMs : Nat := 10000

/-- Modelled from the spec (§4.2), `mergeToTrunk(session, branchName,
lockTimeoutMs) -> MergeOutcome`: acquire the Merge Lock with a bounded
wait (`getLock` models the store's named-lock primitive: given the
timeout, did acquisition succeed within it), raising `LockTimeoutError`
on failure; with the lock held, merge the branch into the checked-out
trunk; zero conflicts — record the merge and query the current head as
the new version; nonzero — abort, restoring the trunk to its pre-merge
state; release the lock on every path (the lock is scoped to this call
and never recorded in the store). -/
def mergeToTrunk (st : Store) (branchName : String) (base : Version)
    (getLock : Nat → Bool) (lockTimeoutMs : Nat := defaultLockTimeoutMs) :
    Except VdsError MergeOutcome × Store :=
  if getLock lockTimeoutMs then
    match st.branches.lookup branchName with
    | none => (.error .branchCreateError, st)
    | some bv =>
        if conflictCount st.trunk bv base = 0 then
          let st' := { st with trunk := mergedVersion st.trunk bv base }
          (.ok (.Clean st'.trunk), st')
        else
          (.ok .Conflicted, st)
  else
    (.error .lockTimeoutError, st)

/-- Modelled from the spec (§4.3 step 8): return the dedicated session
to the pool, counting the release. -/
def releaseSession (st : Store) : Store :=
  { st with pool := st.pool + 1, releases := st.releases + 1 }

/-- Modelled from the spec (§4.1): branch deletion tolerating an absent
branch as a benign no-op. -/
def deleteBranch (branches : List (String × Version)) (branchName : String) :
    List (String × Version) :=
  branches.filter (fun p => p.1 ≠ branchName)

/-- Modelled from the spec (§4.3 step 8, §7): the guaranteed-run
finalization — delete the mutation branch, then release the session.
`cleanupOk` models whether branch deletion itself succeeds; on failure
the incident is logged, never thrown over the invocation's own result. -/
def finalize (st : Store) (branchName : String) (cleanupOk : Bool) : Store :=
  if cleanupOk then
    releaseSession { st with branches := deleteBranch st.branches branchName }
  else
    releaseSession { st with log := ("cleanup failed: " ++ branchName) :: st.log }

/-- Modelled from the spec (§4.3 step 2): the fork base — the supplied
base version when given, else the current trunk head read at invocation. -/
def resolveBase (baseOpt : Option Version) (trunkHead : Version) : Version :=
  baseOpt.getD trunkHead

/-- Modelled from the spec (§4.3 step 5): record the branch commit —
rebind the branch name to the committed branch version. -/
def commitOnBranch (branches : List (String × Version)) (branchName : String)
    (bv : Version) : List (String × Version) :=
  branches.map (fun p => if p.1 = branchName then (p.1, bv) else p)

/-- Modelled from the spec (§4.3 steps 3-9): the orchestrator body after
session acquisition and base resolution.  `uow` is the caller's unit of
work, run against the branch state: it either throws (an opaque error
code) or returns its result together with the writes it performed; the
branch commit records those writes on top of the fork base. -/
def runFromBase (st : Store) (base : Version)
    (uow : Version → Except Nat (Nat × Writes)) (branchName : String)
    (getLock : Nat → Bool) (cleanupOk : Bool) :
    Except VdsError (Nat × Version) × Store :=
  if (st.branches.lookup branchName).isSome then
    (.error .branchCreateError, releaseSession st)
  else
    let stB := { st with branches := (branchName, base) :: st.branches }
    match uow base with
    | .error e => (.error (.unitOfWorkError e), finalize stB branchName cleanupOk)
    | .ok (r, w) =>
        let bv : Version := ⟨w :: base.commits⟩
        let stC := { stB with branches := commitOnBranch stB.branches branchName bv }
        match mergeToTrunk stC branchName base getLock defaultLockTimeoutMs with
        | (.error err, stD) => (.error err, finalize stD branchName cleanupOk)
        | (.ok .Conflicted, stD) =>
            (.error .conflictError, finalize stD branchName cleanupOk)
        | (.ok (.Clean newHead), stD) =>
            (.ok (r, newHead), finalize stD branchName cleanupOk)

/-- Modelled from the spec (§4.3), `runBranchedMutation(message,
optionalBaseVersion, unitOfWork)`: acquire a dedicated session (pool
exhaustion is `ResourceUnavailableError`), resolve the fork base before
any branching, then run the branch-commit-merge-finalize pipeline. -/
def runBranchedMutation (st : Store) (baseOpt : Option Version)
    (uow : Version → Except Nat (Nat × Writes)) (branchName : String)
    (getLock : Nat → Bool) (cleanupOk : Bool) :
    Except VdsError (Nat × Version) × Store :=
  if st.pool = 0 then
    (.error .resourceUnavailableError, st)
  else
    runFromBase { st with pool := st.pool - 1 }
      (resolveBase baseOpt st.trunk) uow branchName getLock cleanupOk

/-- Modelled from the spec (§4.4): the mutation-branch naming
convention, a fixed name pattern beginning with the marker the design
note uses for ephemeral mutation branches. -/
def isMutationBranch (name : String) : Bool :=
  List.isPrefixOf ("mut-".toList) name.toList

/-- Modelled from the spec (§4.4), `sweepOrphans(session) -> count`:
list every branch matching the mutation-branch naming convention, delete
each, return the count deleted. -/
def sweepOrphans (st : Store) : Nat × Store :=
  let orphans := st.branches.filter (fun p => isMutationBranch p.1)
  (orphans.length,
    { st with branches := st.branches.filter (fun p => ¬ isMutationBranch p.1) })

/-! ## Helper lemmas -/

theorem lookup_deleteBranch (l : List (String × Version)) (n : String) :
    (deleteBranch l n).lookup n = none := by
  induction l with
  | nil => rfl
  | cons p l ih =>
      by_cases h : p.1 = n
      · simpa [deleteBranch, List.filter_cons, h] using ih
      · have hb : (n == p.1) = false :=
          beq_eq_false_iff_ne.mpr (fun he => h he.symm)
        simp only [deleteBranch] at ih ⊢
        rw [List.filter_cons, if_pos (by simp [h])]
        simpa [List.lookup, hb] using ih

theorem deleteBranch_fresh (l : List (String × Version)) (n : String)
    (h : l.lookup n = none) : deleteBranch l n = l := by
  induction l with
  | nil => rfl
  | cons p l ih =>
      rw [List.lookup] at h
      by_cases hp : p.1 = n
      · rw [show (n == p.1) = true from beq_iff_eq.mpr hp.symm] at h
        simp at h
      · rw [show (n == p.1) = false from
          beq_eq_false_iff_ne.mpr (fun he => hp he.symm)] at h
        have h' : List.lookup n l = none := h
        simp only [deleteBranch] at ih ⊢
        rw [List.filter_cons, if_pos (by simp [hp]), ih h']

theorem commitOnBranch_fresh (l : List (String × Version)) (n : String)
    (bv : Version) (h : l.lookup n = none) : commitOnBranch l n bv = l := by
  induction l with
  | nil => rfl
  | cons p l ih =>
      rw [List.lookup] at h
      by_cases hp : p.1 = n
      · rw [show (n == p.1) = true from beq_iff_eq.mpr hp.symm] at h
        simp at h
      · rw [show (n == p.1) = false from
          beq_eq_false_iff_ne.mpr (fun he => hp he.symm)] at h
        simp only [commitOnBranch, List.map] at ih ⊢
        simp [hp, ih h]

theorem newCommitsSince_append (tNew : List Writes) (b : Version) :
    newCommitsSince ⟨tNew ++ b.commits⟩ b = tNew := by
  simp [newCommitsSince, List.take_left]

theorem lookup_none_names (l : List (String × Version)) (n : String)
    (h : l.lookup n = none) : ∀ p ∈ l, p.1 ≠ n := by
  induction l with
  | nil =>
      intro p hp
      cases hp
  | cons q l ih =>
      rw [List.lookup] at h
      by_cases hq : q.1 = n
      · rw [show (n == q.1) = true from beq_iff_eq.mpr hq.symm] at h
        simp at h
      · rw [show (n == q.1) = false from
          beq_eq_false_iff_ne.mpr (fun he => hq he.symm)] at h
        intro p hp
        rcases List.mem_cons.mp hp with rfl | hp'
        · exact hq
        · exact ih h p hp'

theorem lookup_cons_self (n : String) (bv : Version)
    (l : List (String × Version)) : ((n, bv) :: l).lookup n = some bv := by
  simp [List.lookup]

theorem newCommitsSince_of_commits_eq (v b : Version) (tNew : List Writes)
    (h : v.commits = tNew ++ b.commits) : newCommitsSince v b = tNew := by
  unfold newCommitsSince
  rw [h]
  simp [List.take_left]

theorem cellsOfCommits_singleton (w : Writes) :
    cellsOfCommits [w] = w.map Prod.fst := by
  simp [cellsOfCommits]

/-- The core computation shared by the parallel-safety claims: a run
from base `b` with a fresh branch name, an available lock, a unit of
work whose writes touch no cell written on the trunk since `b`, and
successful cleanup, returns the unit of work's result with the merge
commit as new head, and ends with the branch deleted and the session
released. -/
theorem runFromBase_clean (st : Store) (b : Version) (tNew : List Writes)
    (uow : Version → Except Nat (Nat × Writes)) (r : Nat) (w : Writes)
    (n : String) (g : Nat → Bool)
    (hf : st.branches.lookup n = none)
    (hg : g defaultLockTimeoutMs = true)
    (ht : st.trunk.commits = tNew ++ b.commits)
    (hu : uow b = .ok (r, w))
    (hdisj : (w.map Prod.fst).filter (fun c => c ∈ cellsOfCommits tNew) = []) :
    runFromBase st b uow n g true =
      (.ok (r, ⟨w :: st.trunk.commits⟩),
        { st with trunk := ⟨w :: st.trunk.commits⟩,
                  pool := st.pool + 1, releases := st.releases + 1 }) := by
  have hTrunkNew : newCommitsSince st.trunk b = tNew :=
    newCommitsSince_of_commits_eq _ _ _ ht
  have hBranchNew : newCommitsSince ⟨w :: b.commits⟩ b = [w] :=
    newCommitsSince_of_commits_eq _ _ _ rfl
  have h1 : List.map
      (fun p => if p.1 = n then (p.1, (⟨w :: b.commits⟩ : Version)) else p)
      st.branches = st.branches := by
    simpa [commitOnBranch] using
      commitOnBranch_fresh st.branches n ⟨w :: b.commits⟩ hf
  have h2 : List.filter (fun p => decide (p.1 ≠ n)) st.branches
      = st.branches := by
    simpa [deleteBranch] using deleteBranch_fresh st.branches n hf
  have hConf : conflictCount st.trunk ⟨w :: b.commits⟩ b = 0 := by
    unfold conflictCount
    rw [hTrunkNew, hBranchNew, cellsOfCommits_singleton, hdisj]
    rfl
  have hMerged : mergedVersion st.trunk ⟨w :: b.commits⟩ b
      = ⟨w :: st.trunk.commits⟩ := by
    unfold mergedVersion
    rw [hBranchNew]
    rfl
  have hLook : ((n, (⟨w :: b.commits⟩ : Version)) :: st.branches).lookup n
      = some ⟨w :: b.commits⟩ := lookup_cons_self n _ st.branches
  simp [runFromBase, mergeToTrunk, finalize, releaseSession, deleteBranch,
    commitOnBranch, hf, hu, hg, h1, h2, hConf, hMerged, hLook]
  intro a bv hmem
  exact lookup_none_names st.branches n hf (a, bv) hmem

/-- The clean run through the public entry point: session taken from
and returned to the pool around `runFromBase_clean`. -/
theorem runBranchedMutation_clean (st : Store) (b : Version)
    (tNew : List Writes) (uow : Version → Except Nat (Nat × Writes))
    (r : Nat) (w : Writes) (n : String) (g : Nat → Bool)
    (hp : st.pool ≠ 0) (hf : st.branches.lookup n = none)
    (hg : g defaultLockTimeoutMs = true)
    (ht : st.trunk.commits = tNew ++ b.commits)
    (hu : uow b = .ok (r, w))
    (hdisj : (w.map Prod.fst).filter (fun c => c ∈ cellsOfCommits tNew) = []) :
    runBranchedMutation st (some b) uow n g true =
      (.ok (r, ⟨w :: st.trunk.commits⟩),
        { st with trunk := ⟨w :: st.trunk.commits⟩,
                  pool := st.pool - 1 + 1, releases := st.releases + 1 }) := by
  have hstep : runBranchedMutation st (some b) uow n g true
      = runFromBase { st with pool := st.pool - 1 } b uow n g true := by
    simp [runBranchedMutation, hp, resolveBase]
  rw [hstep,
    runFromBase_clean { st with pool := st.pool - 1 } b tNew uow r w n g
      hf hg ht hu hdisj]

/-! ## Claims -/

/-- C10: `asOfTable` classifies its optional `as_of` argument
deterministically: `undefined` yields the plain table; a value containing
the character `T` or beginning with four digits and a dash yields
`AS OF TIMESTAMP(as_of)`; every other non-empty string yields
`AS OF as_of` (treated as a commit hash). -/
theorem asOfTable_classification :
    asOfTable none = .plain ∧
    (∀ s : String, (s.toList.contains 'T' || startsWithYearDash s) = true →
      asOfTable (some s) = .timestamp s) ∧
    (∀ s : String, s ≠ "" → s.toList.contains 'T' = false →
      startsWithYearDash s = false → asOfTable (some s) = .hash s) := by
  refine ⟨rfl, ?_, ?_⟩
  · intro s h
    have hne : s ≠ "" := by
      intro he
      subst he
      simp [startsWithYearDash] at h
    simp only [asOfTable]
    rw [if_neg hne, if_pos h]
  · intro s hne hT hY
    have hb : ¬((s.toList.contains 'T' || startsWithYearDash s) = true) := by
      rw [hT, hY]
      simp
    simp only [asOfTable]
    rw [if_neg hne, if_neg hb]

/-- Witness for C10: the classification evaluated at one concrete input
of each shape. -/
theorem asOfTable_classification_witness :
    asOfTable (some "2025-06-15") = .timestamp "2025-06-15" ∧
    asOfTable (some "abc123T") = .timestamp "abc123T" ∧
    asOfTable (some "deadbeef") = .hash "deadbeef" :=
  ⟨asOfTable_classification.2.1 "2025-06-15" (by rfl),
   asOfTable_classification.2.1 "abc123T" (by rfl),
   asOfTable_classification.2.2 "deadbeef" (by decide) (by rfl) (by rfl)⟩

/-- C3 counterexample: the empty string is an expected version that
differs from the current HEAD `"h"`, yet both the `create_item` MCP
handler and the `POST /items` route skip the conflict check (the value
is falsy in JavaScript), run the unit of work and create a commit
instead of rejecting. -/
theorem entry_points_empty_version_counterexample :
    ("h" : String) ≠ "" ∧
    (createItemTool ⟨"h", 0, 0⟩ (some "") "n").1 ≠ .conflict "h" ∧
    (createItemTool ⟨"h", 0, 0⟩ (some "") "n").2.commits = 1 ∧
    (createItemTool ⟨"h", 0, 0⟩ (some "") "n").2.workRuns = 1 ∧
    (itemPostRoute ⟨"h", 0, 0⟩ (some "") "n").1 ≠ .status409 "h" ∧
    (itemPostRoute ⟨"h", 0, 0⟩ (some "") "n").2.commits = 1 :=
  ⟨by decide, by decide, rfl, rfl, by decide, rfl⟩

/-- C3 (amended: the supplied expected version must be non-empty, since
an empty string is falsy and skips the check): whenever the current HEAD
differs from a given non-empty expected version, the MCP `create_item`
handler returns a `CONFLICT` result carrying the current head and the
`POST /items` route returns HTTP 409 carrying the current head, with the
state unchanged — no commit is created and the unit of work never runs. -/
theorem entry_points_reject_on_version_mismatch (st : CodeState) (v : String)
    (newHash : String) (hne : v ≠ "") (hd : st.head ≠ v) :
    createItemTool st (some v) newHash = (.conflict st.head, st) ∧
    itemPostRoute st (some v) newHash = (.status409 st.head, st) := by
  constructor
  · simp [createItemTool, checkVersion, hne, hd]
  · simp [itemPostRoute, hne, hd]

/-- Witness for C3: the rejection evaluated at HEAD `"h"` and expected
version `"stale"`. -/
theorem entry_points_reject_on_version_mismatch_witness :
    createItemTool ⟨"h", 0, 0⟩ (some "stale") "n" = (.conflict "h", ⟨"h", 0, 0⟩) ∧
    itemPostRoute ⟨"h", 0, 0⟩ (some "stale") "n" = (.status409 "h", ⟨"h", 0, 0⟩) :=
  entry_points_reject_on_version_mismatch ⟨"h", 0, 0⟩ "stale" "n"
    (by decide) (by decide)

/-- C4: `mergeToTrunk` interprets the merge result by conflict count —
zero conflicts: the trunk becomes the merge result and the outcome is
`Clean` carrying the queried current head (the returned head equals the
post-merge store's trunk); nonzero conflicts: the outcome is
`Conflicted` and the store is exactly its pre-merge state, so a
half-merged trunk is never left behind. -/
theorem mergeToTrunk_interprets_conflict_count (st : Store) (n : String)
    (base bv : Version) (g : Nat → Bool) (t : Nat)
    (hg : g t = true) (hb : st.branches.lookup n = some bv) :
    (conflictCount st.trunk bv base = 0 →
      mergeToTrunk st n base g t =
        (.ok (.Clean (mergedVersion st.trunk bv base)),
          { st with trunk := mergedVersion st.trunk bv base })) ∧
    (conflictCount st.trunk bv base ≠ 0 →
      mergeToTrunk st n base g t = (.ok .Conflicted, st)) ∧
    (∀ v, (mergeToTrunk st n base g t).1 = .ok (.Clean v) →
      v = (mergeToTrunk st n base g t).2.trunk) := by
  refine ⟨?_, ?_, ?_⟩
  · intro hc
    simp [mergeToTrunk, hg, hb, hc]
  · intro hc
    simp [mergeToTrunk, hg, hb, hc]
  · intro v hv
    by_cases hc : conflictCount st.trunk bv base = 0
    · simp [mergeToTrunk, hg, hb, hc] at hv ⊢
      exact hv.symm
    · simp [mergeToTrunk, hg, hb, hc] at hv

/-- Witness for C4: both outcome branches evaluated on one-branch
stores — a disjoint write merges cleanly onto the advanced trunk, an
overlapping write reports `Conflicted` with the store untouched. -/
theorem mergeToTrunk_interprets_conflict_count_witness :
    (mergeToTrunk ⟨⟨[[((1, 1), 5)]]⟩, [("mut-a", ⟨[[((2, 2), 9)]]⟩)], 0, 0, []⟩
        "mut-a" ⟨[]⟩ (fun _ => true) 10000 =
      (.ok (.Clean ⟨[[((2, 2), 9)], [((1, 1), 5)]]⟩),
        ⟨⟨[[((2, 2), 9)], [((1, 1), 5)]]⟩,
          [("mut-a", ⟨[[((2, 2), 9)]]⟩)], 0, 0, []⟩)) ∧
    (mergeToTrunk ⟨⟨[[((1, 1), 5)]]⟩, [("mut-b", ⟨[[((1, 1), 9)]]⟩)], 0, 0, []⟩
        "mut-b" ⟨[]⟩ (fun _ => true) 10000 =
      (.ok .Conflicted,
        ⟨⟨[[((1, 1), 5)]]⟩, [("mut-b", ⟨[[((1, 1), 9)]]⟩)], 0, 0, []⟩)) :=
  ⟨(mergeToTrunk_interprets_conflict_count _ "mut-a" ⟨[]⟩ ⟨[[((2, 2), 9)]]⟩
      (fun _ => true) 10000 rfl (by rfl)).1 (by rfl),
   (mergeToTrunk_interprets_conflict_count _ "mut-b" ⟨[]⟩ ⟨[[((1, 1), 9)]]⟩
      (fun _ => true) 10000 rfl (by rfl)).2.1 (by decide)⟩

/-- C5: `mergeToTrunk` waits for the Merge Lock with a bounded timeout
whose default is 10 000 ms; when the lock is not acquired within the
bound it raises `LockTimeoutError` — an error distinct from
`ConflictError`, never a success — and the branch with its already
committed content is still present in the store afterwards. -/
theorem mergeToTrunk_lock_timeout (st : Store) (n : String)
    (base bv : Version) (g : Nat → Bool) (t : Nat)
    (hg : g t = false) (hb : st.branches.lookup n = some bv) :
    defaultLockTimeoutMs = 10000 ∧
    mergeToTrunk st n base g t = (.error .lockTimeoutError, st) ∧
    VdsError.lockTimeoutError ≠ VdsError.conflictError ∧
    (∀ r, (mergeToTrunk st n base g t).1 ≠ .ok r) ∧
    (mergeToTrunk st n base g t).2.branches.lookup n = some bv := by
  refine ⟨rfl, ?_, by simp, ?_, ?_⟩
  · simp [mergeToTrunk, hg]
  · intro r
    simp [mergeToTrunk, hg]
  · simpa [mergeToTrunk, hg] using hb

/-- Witness for C5: the lock-timeout path evaluated on a one-branch
store with a lock that never grants. -/
theorem mergeToTrunk_lock_timeout_witness :
    defaultLockTimeoutMs = 10000 ∧
    mergeToTrunk ⟨⟨[]⟩, [("mut-a", ⟨[[((1, 1), 5)]]⟩)], 0, 0, []⟩
        "mut-a" ⟨[]⟩ (fun _ => false) 10000 =
      (.error .lockTimeoutError,
        ⟨⟨[]⟩, [("mut-a", ⟨[[((1, 1), 5)]]⟩)], 0, 0, []⟩) :=
  ⟨(mergeToTrunk_lock_timeout ⟨⟨[]⟩, [("mut-a", ⟨[[((1, 1), 5)]]⟩)], 0, 0, []⟩
      "mut-a" ⟨[]⟩ ⟨[[((1, 1), 5)]]⟩ (fun _ => false) 10000 rfl (by rfl)).1,
   (mergeToTrunk_lock_timeout ⟨⟨[]⟩, [("mut-a", ⟨[[((1, 1), 5)]]⟩)], 0, 0, []⟩
      "mut-a" ⟨[]⟩ ⟨[[((1, 1), 5)]]⟩ (fun _ => false) 10000 rfl (by rfl)).2.1⟩

/-- C6: the fork base is the supplied base version when one is given and
otherwise the trunk head read at invocation time, and
`runBranchedMutation` is exactly the pipeline run from that resolved
base — the base is computed once, before any branching, from the
invocation-time trunk only. -/
theorem runBranchedMutation_resolves_base :
    (∀ (b t : Version), resolveBase (some b) t = b) ∧
    (∀ t : Version, resolveBase none t = t) ∧
    (∀ (st : Store) (baseOpt : Option Version)
        (uow : Version → Except Nat (Nat × Writes)) (n : String)
        (g : Nat → Bool) (c : Bool), st.pool ≠ 0 →
      runBranchedMutation st baseOpt uow n g c =
        runFromBase { st with pool := st.pool - 1 }
          (resolveBase baseOpt st.trunk) uow n g c) := by
  refine ⟨fun _ _ => rfl, fun _ => rfl, ?_⟩
  intro st baseOpt uow n g c hp
  simp [runBranchedMutation, hp]

/-- C9: `sweepOrphans` reports as its count exactly the number of
branches matching the mutation-branch naming convention, leaves no
matching branch behind, deletes nothing else (every non-matching branch
survives, nothing new appears), and leaves the trunk untouched. -/
theorem sweepOrphans_correct (st : Store) :
    (sweepOrphans st).1
        = (st.branches.filter (fun p => isMutationBranch p.1)).length ∧
    (∀ p ∈ (sweepOrphans st).2.branches, ¬ isMutationBranch p.1) ∧
    (∀ p ∈ (sweepOrphans st).2.branches, p ∈ st.branches) ∧
    (∀ p ∈ st.branches, ¬ isMutationBranch p.1 →
      p ∈ (sweepOrphans st).2.branches) ∧
    (sweepOrphans st).2.trunk = st.trunk := by
  refine ⟨rfl, ?_, ?_, ?_, rfl⟩
  · intro p hp
    have h := (List.mem_filter.mp hp).2
    simpa using h
  · intro p hp
    exact (List.mem_filter.mp hp).1
  · intro p hp hnp
    exact List.mem_filter.mpr ⟨hp, by simpa using hnp⟩

/-- C2: a mutation whose supplied base version is stale (the trunk has
advanced past it by the nonempty commit list `tNew`) but whose writes
touch no cell changed by those intervening commits still completes with
a `Clean` outcome — the unit of work's result together with the merge
commit as the new head — rather than a conflict error. -/
theorem stale_base_non_overlapping_clean (st : Store) (b : Version)
    (tNew : List Writes) (uow : Version → Except Nat (Nat × Writes))
    (r : Nat) (w : Writes) (n : String) (g : Nat → Bool)
    (hp : st.pool ≠ 0) (hf : st.branches.lookup n = none)
    (hg : g defaultLockTimeoutMs = true)
    (hstale : tNew ≠ [])
    (ht : st.trunk.commits = tNew ++ b.commits)
    (hu : uow b = .ok (r, w))
    (hdisj : (w.map Prod.fst).filter (fun c => c ∈ cellsOfCommits tNew) = []) :
    (runBranchedMutation st (some b) uow n g true).1
        = .ok (r, ⟨w :: st.trunk.commits⟩) := by
  rw [runBranchedMutation_clean st b tNew uow r w n g hp hf hg ht hu hdisj]

/-- Witness for C2: from trunk `[[((1,1),5)]]` a mutation pinned to the
stale genesis base writes the disjoint cell `(2,2)` and merges cleanly. -/
theorem stale_base_non_overlapping_clean_witness :
    (runBranchedMutation ⟨⟨[[((1, 1), 5)]]⟩, [], 1, 0, []⟩ (some ⟨[]⟩)
        (fun _ => .ok (8, [((2, 2), 9)])) "mut-b" (fun _ => true) true).1
      = .ok (8, ⟨[[((2, 2), 9)], [((1, 1), 5)]]⟩) :=
  stale_base_non_overlapping_clean ⟨⟨[[((1, 1), 5)]]⟩, [], 1, 0, []⟩ ⟨[]⟩
    [[((1, 1), 5)]] (fun _ => .ok (8, [((2, 2), 9)])) 8 [((2, 2), 9)]
    "mut-b" (fun _ => true) (by decide) (by rfl) rfl (by decide) rfl rfl
    (by rfl)

/-- C1: two mutations forked from the same base version, which is the
trunk head at fork time, whose writes touch disjoint cells, both
complete with `Clean` outcomes when their merges are serialized by the
Merge Lock (the second sees the first's commit already on the trunk),
and the two returned trunk heads are distinct and causally ordered (the
first's history is a suffix of the second's). -/
theorem concurrent_disjoint_mutations (st : Store) (b : Version)
    (uow1 uow2 : Version → Except Nat (Nat × Writes))
    (r1 r2 : Nat) (w1 w2 : Writes) (n1 n2 : String) (g : Nat → Bool)
    (hp : st.pool ≠ 0) (htr : st.trunk = b)
    (hf1 : st.branches.lookup n1 = none)
    (hf2 : st.branches.lookup n2 = none)
    (hg : g defaultLockTimeoutMs = true)
    (hu1 : uow1 b = .ok (r1, w1)) (hu2 : uow2 b = .ok (r2, w2))
    (hdisj : (w2.map Prod.fst).filter
      (fun c => c ∈ cellsOfCommits [w1]) = []) :
    (runBranchedMutation st (some b) uow1 n1 g true).1
        = .ok (r1, ⟨w1 :: b.commits⟩) ∧
    (runBranchedMutation (runBranchedMutation st (some b) uow1 n1 g true).2
        (some b) uow2 n2 g true).1 = .ok (r2, ⟨w2 :: w1 :: b.commits⟩) ∧
    (⟨w1 :: b.commits⟩ : Version) ≠ ⟨w2 :: w1 :: b.commits⟩ ∧
    (⟨w1 :: b.commits⟩ : Version).commits <:+
      (⟨w2 :: w1 :: b.commits⟩ : Version).commits := by
  subst htr
  have hd1 : (w1.map Prod.fst).filter
      (fun c => c ∈ cellsOfCommits ([] : List Writes)) = [] := by
    simp [cellsOfCommits]
  have e1 := runBranchedMutation_clean st st.trunk [] uow1 r1 w1 n1 g
    hp hf1 hg rfl hu1 hd1
  have e2 := runBranchedMutation_clean
    { st with trunk := ⟨w1 :: st.trunk.commits⟩,
              pool := st.pool - 1 + 1, releases := st.releases + 1 }
    st.trunk [w1] uow2 r2 w2 n2 g (Nat.succ_ne_zero _) hf2 hg rfl hu2 hdisj
  refine ⟨?_, ?_, ?_, ⟨[w2], rfl⟩⟩
  · rw [e1]
  · have hpair : (runBranchedMutation st (some st.trunk) uow1 n1 g true).2
        = { st with trunk := ⟨w1 :: st.trunk.commits⟩,
                    pool := st.pool - 1 + 1,
                    releases := st.releases + 1 } := by
      rw [e1]
    rw [hpair, e2]
  · intro h
    have hlen := congrArg (fun v : Version => v.commits.length) h
    simp at hlen

/-- Witness for C1: from the genesis trunk, mutation A writes cell
`(1,1)` and mutation B writes cell `(2,2)`; both return `Clean` with
distinct, causally-ordered heads. -/
theorem concurrent_disjoint_mutations_witness :
    (runBranchedMutation ⟨⟨[]⟩, [], 1, 0, []⟩ (some ⟨[]⟩)
        (fun _ => .ok (1, [((1, 1), 5)])) "mut-a" (fun _ => true) true).1
      = .ok (1, ⟨[[((1, 1), 5)]]⟩) ∧
    (runBranchedMutation
        (runBranchedMutation ⟨⟨[]⟩, [], 1, 0, []⟩ (some ⟨[]⟩)
          (fun _ => .ok (1, [((1, 1), 5)])) "mut-a" (fun _ => true) true).2
        (some ⟨[]⟩) (fun _ => .ok (2, [((2, 2), 9)])) "mut-b"
        (fun _ => true) true).1
      = .ok (2, ⟨[[((2, 2), 9)], [((1, 1), 5)]]⟩) ∧
    (⟨[[((1, 1), 5)]]⟩ : Version) ≠ ⟨[[((2, 2), 9)], [((1, 1), 5)]]⟩ ∧
    (⟨[[((1, 1), 5)]]⟩ : Version).commits <:+
      (⟨[[((2, 2), 9)], [((1, 1), 5)]]⟩ : Version).commits :=
  concurrent_disjoint_mutations ⟨⟨[]⟩, [], 1, 0, []⟩ ⟨[]⟩
    (fun _ => .ok (1, [((1, 1), 5)])) (fun _ => .ok (2, [((2, 2), 9)]))
    1 2 [((1, 1), 5)] [((2, 2), 9)] "mut-a" "mut-b" (fun _ => true)
    (by decide) rfl rfl rfl rfl rfl rfl (by rfl)

/-- C7: an error thrown by the caller-supplied unit of work propagates
to the caller unchanged — never swallowed or converted to a conflict —
and no commit is made for that attempt (the trunk is untouched), while
branch deletion and session release still run in finalization; when
branch deletion itself fails the incident is appended to the log and the
original error is still the one returned. -/
theorem unit_of_work_error_propagates (st : Store) (baseOpt : Option Version)
    (uow : Version → Except Nat (Nat × Writes)) (n : String)
    (g : Nat → Bool) (c : Bool) (e : Nat)
    (hp : st.pool ≠ 0) (hf : st.branches.lookup n = none)
    (hu : uow (resolveBase baseOpt st.trunk) = .error e) :
    (runBranchedMutation st baseOpt uow n g c).1
        = .error (.unitOfWorkError e) ∧
    (runBranchedMutation st baseOpt uow n g c).2.trunk = st.trunk ∧
    (runBranchedMutation st baseOpt uow n g c).2.releases
        = st.releases + 1 ∧
    (runBranchedMutation st baseOpt uow n g c).2.pool = st.pool ∧
    (c = true →
      (runBranchedMutation st baseOpt uow n g c).2.branches = st.branches ∧
      (runBranchedMutation st baseOpt uow n g c).2.log = st.log) ∧
    (c = false →
      (runBranchedMutation st baseOpt uow n g c).2.log
        = ("cleanup failed: " ++ n) :: st.log) := by
  have hpool : st.pool - 1 + 1 = st.pool :=
    Nat.sub_add_cancel (Nat.one_le_iff_ne_zero.mpr hp)
  have h2 : List.filter (fun p => decide (p.1 ≠ n)) st.branches
      = st.branches := by
    simpa [deleteBranch] using deleteBranch_fresh st.branches n hf
  have hrun : runBranchedMutation st baseOpt uow n g c
      = (.error (.unitOfWorkError e),
          finalize
            (Store.mk st.trunk
              ((n, resolveBase baseOpt st.trunk) :: st.branches)
              (st.pool - 1) st.releases st.log)
            n c) := by
    simp [runBranchedMutation, hp, runFromBase, hf, hu]
  simp only [hrun]
  cases c with
  | true =>
      simp [finalize, releaseSession, deleteBranch, List.filter_cons,
        h2, hpool]
      intro a bv hmem
      exact lookup_none_names st.branches n hf (a, bv) hmem
  | false =>
      simp [finalize, releaseSession, hpool]

/-- Witness for C7: a unit of work failing with code 42 on a
one-session store — the error is returned as-is and cleanup runs. -/
theorem unit_of_work_error_propagates_witness :
    (runBranchedMutation ⟨⟨[]⟩, [], 1, 0, []⟩ none
        (fun _ => .error 42) "mut-a" (fun _ => true) true).1
      = .error (.unitOfWorkError 42) ∧
    (runBranchedMutation ⟨⟨[]⟩, [], 1, 0, []⟩ none
        (fun _ => .error 42) "mut-a" (fun _ => true) true).2.releases = 1 :=
  ⟨(unit_of_work_error_propagates ⟨⟨[]⟩, [], 1, 0, []⟩ none
      (fun _ => .error 42) "mut-a" (fun _ => true) true 42
      (by decide) rfl rfl).1,
   (unit_of_work_error_propagates ⟨⟨[]⟩, [], 1, 0, []⟩ none
      (fun _ => .error 42) "mut-a" (fun _ => true) true 42
      (by decide) rfl rfl).2.2.1⟩

/-- C8: whatever way an invocation with an available session, a fresh
branch name and working cleanup terminates — success, merge conflict,
lock timeout or a unit-of-work error — no branch under the invocation's
name remains afterwards, the session release count rises by exactly one,
and the pool is back to its starting size. -/
theorem invocation_cleanup_invariant (st : Store) (baseOpt : Option Version)
    (uow : Version → Except Nat (Nat × Writes)) (n : String)
    (g : Nat → Bool)
    (hp : st.pool ≠ 0) (hf : st.branches.lookup n = none) :
    (runBranchedMutation st baseOpt uow n g true).2.branches.lookup n
        = none ∧
    (runBranchedMutation st baseOpt uow n g true).2.releases
        = st.releases + 1 ∧
    (runBranchedMutation st baseOpt uow n g true).2.pool = st.pool := by
  have hpool : st.pool - 1 + 1 = st.pool :=
    Nat.sub_add_cancel (Nat.one_le_iff_ne_zero.mpr hp)
  have hcb : ∀ bv : Version, commitOnBranch st.branches n bv = st.branches :=
    fun bv => commitOnBranch_fresh st.branches n bv hf
  cases hval : uow (resolveBase baseOpt st.trunk) with
  | error e =>
      simp [runBranchedMutation, hp, runFromBase, hf, hval, finalize,
        releaseSession, lookup_deleteBranch, hpool]
  | ok p =>
      obtain ⟨r, w⟩ := p
      cases hgl : g defaultLockTimeoutMs with
      | false =>
          simp [runBranchedMutation, hp, runFromBase, hf, hval,
            mergeToTrunk, hgl, finalize, releaseSession,
            lookup_deleteBranch, hpool]
      | true =>
          by_cases hc : conflictCount st.trunk
              ⟨w :: (resolveBase baseOpt st.trunk).commits⟩
              (resolveBase baseOpt st.trunk) = 0 <;>
            simp [runBranchedMutation, hp, runFromBase, hf, hval,
              mergeToTrunk, hgl, commitOnBranch, hcb, lookup_cons_self,
              hc, finalize, releaseSession, lookup_deleteBranch, hpool]

/-- Witness for C8: a clean run on a one-session store ends with no
`mut-a` branch, one release, and the pool back at its starting size. -/
theorem invocation_cleanup_invariant_witness :
    (runBranchedMutation ⟨⟨[]⟩, [], 1, 0, []⟩ none
        (fun _ => .ok (7, [((1, 1), 5)])) "mut-a"
        (fun _ => true) true).2.branches.lookup "mut-a" = none ∧
    (runBranchedMutation ⟨⟨[]⟩, [], 1, 0, []⟩ none
        (fun _ => .ok (7, [((1, 1), 5)])) "mut-a"
        (fun _ => true) true).2.releases = 1 ∧
    (runBranchedMutation ⟨⟨[]⟩, [], 1, 0, []⟩ none
        (fun _ => .ok (7, [((1, 1), 5)])) "mut-a"
        (fun _ => true) true).2.pool = 1 :=
  invocation_cleanup_invariant ⟨⟨[]⟩, [], 1, 0, []⟩ none
    (fun _ => .ok (7, [((1, 1), 5)])) "mut-a" (fun _ => true)
    (by decide) rfl

end Vds
